import Mathlib

/-!
Verification of the redispipe pipelined Redis connection core.

The definitions below are a shallow embedding of the Go sources:
`redis/request_writer.go` (RESP request serializer) and the accompanying
`redisconn` connection code (submission paths `doSend`, `SendBatchFlags`,
`doSendBatch`, `SendTransaction`, the dirty-shard queue protocol, the
per-socket `setErr` latch, and the scheme detection prelude of `dial`).
Byte buffers are modelled as `List Char` (the protocol and all numeric
output are ASCII; user payloads pass through untouched either way).
Go machine integers are modelled as `Int`/`Nat` with explicit `% 2^64`
where a Go conversion can wrap.
-/

namespace Redispipe

/-- The character for a single decimal digit, `byte(d) + '0'` in the source. -/
def digitChar (d : Nat) : Char := Char.ofNat (d + 48)

/-- The digit-extraction loop of `appendUint`: the source fills a 20-byte
array `digits` from the back while `u > 0`, producing the decimal digits of
`u` most significant first (and nothing at all for `u = 0`).  The fuel
parameter is the size 20 of the array. -/
def uintDigitsAux : Nat → Nat → List Char → List Char
  | 0, _, acc => acc
  | fuel + 1, u, acc =>
    if 0 < u then uintDigitsAux fuel (u / 10) (digitChar (u % 10) :: acc) else acc

/-- Definition of `appendUint` from request_writer.go: append the decimal digits of `u`
(nothing for `u = 0`). -/
def appendUint (b : List Char) (u : Nat) : List Char :=
  b ++ uintDigitsAux 20 u []

/-- Definition of `appendInt` from request_writer.go.  The Go conversion `uint64(i)` /
`uint64(-i)` wraps modulo `2^64`; `-i` itself is computed in wrapping int64
arithmetic, which for every in-range `i` (including `math.MinInt64`) makes
`uint64(-i) = (-i) % 2^64` with `-i` read in `ℤ`. -/
def appendInt (b : List Char) (i : Int) : List Char :=
  if 0 ≤ i ∧ i ≤ 9 then b ++ [digitChar i.toNat]
  else if 0 < i then appendUint b ((i % 18446744073709551616).toNat)
  else appendUint (b ++ ['-']) (((-i) % 18446744073709551616).toNat)

/-- Definition of `appendHead` from request_writer.go: type marker, decimal integer, CRLF. -/
def appendHead (b : List Char) (t : Char) (i : Int) : List Char :=
  appendInt (b ++ [t]) i ++ ['\r', '\n']

/-- Definition of `appendBulkInt` from request_writer.go: writes a placeholder bulk header
(`$0` or `$00` depending on a digit-count range test), appends the decimal
digits, then patches the header length digits in place (`b[l-3]`, `b[l-4]`). -/
def appendBulkInt (b : List Char) (i : Int) : List Char :=
  let b1 := if -99999999 ≤ i ∧ i ≤ 999999999
    then b ++ ['$', '0', '\r', '\n']
    else b ++ ['$', '0', '0', '\r', '\n']
  let l := b1.length
  let b2 := appendInt b1 i
  let li := b2.length - l
  if li < 10 then
    b2.set (l - 3) (digitChar li)
  else
    (b2.set (l - 4) (digitChar (li / 10))).set (l - 3) (digitChar (li % 10))

/-- Definition of `appendBulkUint` from request_writer.go. -/
def appendBulkUint (b : List Char) (u : Nat) : List Char :=
  let b1 := if u ≤ 999999999
    then b ++ ['$', '0', '\r', '\n']
    else b ++ ['$', '1', '0', '\r', '\n']
  let l := b1.length
  let b2 := appendUint b1 u
  let li := b2.length - l
  if li < 10 then
    b2.set (l - 3) (digitChar li)
  else
    (b2.set (l - 4) (digitChar (li / 10))).set (l - 3) (digitChar (li % 10))

/-- A Go `interface{}` argument value, by the cases of the type switch in
`AppendRequest` / `ArgToString`.  All signed widths (`int`, `int64`, `int32`,
`int16`, `int8`) are converted by the source to `int64` before formatting, so
they are carried here as one constructor holding the converted value; likewise
the unsigned widths.  The float constructors carry the string produced by
`strconv.FormatFloat(v, 'f', -1, bits)` — a Go standard-library collaborator
external to this repository, invoked identically by the serializer and by
`ArgToString`.  `unsupported` stands for a value of any type outside the
switch (the `default` case). -/
inductive Arg
  | str (s : String)
  | bytes (s : String)
  | sint (i : Int)
  | uint (u : Nat)
  | boolean (v : Bool)
  | float32 (s : String)
  | float64 (s : String)
  | nil
  | unsupported
deriving DecidableEq

/-- Range side conditions carried by the Go machine types: every signed width
converts into int64 range, every unsigned width into uint64 range. -/
def Arg.inRange : Arg → Bool
  | .sint i => decide (-9223372036854775808 ≤ i ∧ i < 9223372036854775808)
  | .uint u => decide (u < 18446744073709551616)
  | _ => true

/-- The `redis.Request` type: command name and arguments. -/
structure Request where
  cmd : String
  args : List Arg
deriving DecidableEq

def crlf : List Char := ['\r', '\n']

/-- The space-scanning loop at the top of `AppendRequest`:
`space := -1; for i, c := range []byte(req.Cmd) { if c == ' ' { space = i } }`.
It records the index of the LAST space of the command name. -/
def lastSpaceAux : List Char → Nat → Option Nat → Option Nat
  | [], _, space => space
  | c :: cs, i, space => lastSpaceAux cs (i + 1) (if c = ' ' then some i else space)

def lastSpace (s : List Char) : Option Nat := lastSpaceAux s 0 none

/-- One iteration of the argument loop of `AppendRequest`, including the
common trailing CRLF.  `none` models the `ErrArgumentType` early return of
the `default` case. -/
def appendArg (b : List Char) (a : Arg) : Option (List Char) :=
  match a with
  | .str s => some (appendHead b '$' (s.data.length : Int) ++ s.data ++ crlf)
  | .bytes s => some (appendHead b '$' (s.data.length : Int) ++ s.data ++ crlf)
  | .sint i => some (appendBulkInt b i ++ crlf)
  | .uint u => some (appendBulkUint b u ++ crlf)
  | .boolean v =>
    some (b ++ (if v then "$1\r\n1".data else "$1\r\n0".data) ++ crlf)
  | .float32 s => some (appendHead b '$' (s.data.length : Int) ++ s.data ++ crlf)
  | .float64 s => some (appendHead b '$' (s.data.length : Int) ++ s.data ++ crlf)
  | .nil => some (b ++ "$0\r\n".data ++ crlf)
  | .unsupported => none

/-- The argument loop of `AppendRequest`; on an unsupported argument the
source returns `nil, NewErr(ErrKindRequest, ErrArgumentType)`. -/
def appendArgs (b : List Char) : List Arg → Option (List Char)
  | [] => some b
  | a :: rest =>
    match appendArg b a with
    | none => none
    | some b2 => appendArgs b2 rest

/-- Definition of `AppendRequest` from request_writer.go. -/
def AppendRequest (buf : List Char) (req : Request) : Option (List Char) :=
  let cmd := req.cmd.data
  match lastSpace cmd with
  | none =>
    let b1 := appendHead buf '*' ((req.args.length : Int) + 1)
    let b2 := appendHead b1 '$' (cmd.length : Int) ++ cmd ++ crlf
    appendArgs b2 req.args
  | some space =>
    let b1 := appendHead buf '*' ((req.args.length : Int) + 2)
    let b2 := appendHead b1 '$' (space : Int) ++ cmd.take space ++ crlf
    let b3 := appendHead b2 '$' ((cmd.length : Int) - (space : Int) - 1)
      ++ cmd.drop (space + 1) ++ crlf
    appendArgs b3 req.args

/-- Definition of `ArgToString` from request_writer.go: the per-argument textual form used
for cluster slot routing ("Have to be in sync with AppendRequest").  `none`
models the `("", false)` return of the `default` case. -/
def ArgToString (arg : Arg) : Option (List Char) :=
  match arg with
  | .str s => some s.data
  | .bytes s => some s.data
  | .sint i => some (appendInt [] i)
  | .uint u => some (appendUint [] u)
  | .boolean v => some (if v then ['1'] else ['0'])
  | .float32 s => some s.data
  | .float64 s => some s.data
  | .nil => some []
  | .unsupported => none

/-- RESP bulk-string framing of a payload: `$<len>\r\n<payload>\r\n`. -/
def bulk (payload : List Char) : List Char :=
  '$' :: appendInt [] (payload.length : Int) ++ crlf ++ payload ++ crlf

/-! ### Decimal-digit machinery

`uintDigitsAux` is related to `Nat.digits`; the digit-count range tests in
`appendBulkInt` / `appendBulkUint` are then settled through digit-length
bounds. -/

/-- The decimal digit characters of `u`, most significant first. -/
def decimalRep (u : Nat) : List Char :=
  ((Nat.digits 10 u).map digitChar).reverse

/-- The textual form `appendInt` writes for an in-range int64. -/
def intRep (i : Int) : List Char :=
  if i = 0 then ['0']
  else if 0 < i then decimalRep i.toNat
  else '-' :: decimalRep (-i).toNat

/-- The head part of a RESP bulk string: `$<len>\r\n<payload>` without the
trailing CRLF (which `AppendRequest`'s argument loop appends separately). -/
def bulkHead (payload : List Char) : List Char :=
  '$' :: appendInt [] (payload.length : Int) ++ crlf ++ payload

/-- Modelled from the spec: the spec claims the command name is "split into two
RESP bulk strings on first space"; this definition renders a request exactly as
`AppendRequest` does except that the split point is the FIRST space of the
command name. -/
def specAppendRequestFirstSpace (buf : List Char) (req : Request) : Option (List Char) :=
  let cmd := req.cmd.data
  match cmd.findIdx? (fun c => c = ' ') with
  | none =>
    let b1 := appendHead buf '*' ((req.args.length : Int) + 1)
    let b2 := appendHead b1 '$' (cmd.length : Int) ++ cmd ++ crlf
    appendArgs b2 req.args
  | some space =>
    let b1 := appendHead buf '*' ((req.args.length : Int) + 2)
    let b2 := appendHead b1 '$' (space : Int) ++ cmd.take space ++ crlf
    let b3 := appendHead b2 '$' ((cmd.length : Int) - (space : Int) - 1)
      ++ cmd.drop (space + 1) ++ crlf
    appendArgs b3 req.args

/-! ### Connection-level model (conn.go)

The submission paths are pure state transformers over a shard's pending
futures list; `cb.Resolve` invocations are collected as an ordered event
list.  The `nownano()` enqueue timestamps and the `.With(...)` diagnostic
attachments on errors are observability-only and not modelled. -/

/-- The atomic connection state word of conn.go. -/
inductive ConnState
  | disconnected
  | connecting
  | connected
  | closed
deriving DecidableEq

/-- Error kinds of the redis error model. -/
inductive ErrKind
  | opts
  | request
  | connection
  | context
  | response
  | ioErr
deriving DecidableEq

/-- Error codes of the redis error model (the ones the core uses). -/
inductive ErrCode
  | argumentType
  | batchFormat
  | requestCancelled
  | notConnected
  | contextClosed
  | dialFail
  | connSetup
  | auth
  | ping
  | ioError
deriving DecidableEq

/-- A Go error value as the core handles it: either the cancellation error of
the connection context (`conn.ctx.Err()`, an external value), or a redis
`*Error` built by `NewErr(kind, code)`, possibly wrapping a cause
(`NewErrWrap` / `.Wrap`). -/
inductive GoErr
  | ctxCanceled
  | redisErr (kind : ErrKind) (code : ErrCode)
  | wrap (kind : ErrKind) (code : ErrCode) (cause : GoErr)
deriving DecidableEq

def errArgumentType : GoErr := .redisErr .request .argumentType

def errBatchFormat (inner : GoErr) : GoErr := .wrap .request .batchFormat inner

def errContextClosed : GoErr := .wrap .context .contextClosed .ctxCanceled

def errNotConnected : GoErr := .redisErr .connection .notConnected

def errRequestCancelled : GoErr := .redisErr .request .requestCancelled

/-- A parsed RESP response value (the parser collaborator's output).  Arrays
are encoded with their own nil/cons constructors so that decidable equality
derives structurally; `RVal.arr` below rebuilds the usual list view. -/
inductive RVal
  | simple (s : String)
  | bulkStr (s : String)
  | int (i : Int)
  | nil
  | arrNil
  | arrCons (head tail : RVal)
deriving DecidableEq

/-- An array response holding the given values. -/
def RVal.arr (vs : List RVal) : RVal :=
  vs.foldr RVal.arrCons RVal.arrNil

/-- A value delivered to `Future.Resolve`: a response value or an error. -/
inductive Res
  | val (v : RVal)
  | err (e : GoErr)
deriving DecidableEq

/-- Which future an enqueued entry resolves into: the shared `dumb` sentinel
(discards its result) or the future submitted with the call. -/
inductive Owner
  | dumb
  | user
deriving DecidableEq

/-- An enqueued `future` struct `{cb, n, nownano(), req}` (timestamp not
modelled). -/
structure FutEntry where
  owner : Owner
  idx : Nat
  req : Request
deriving DecidableEq

def DoAsking : Nat := 1

def DoTransaction : Nat := 2

/-- Modelled from the spec: `redis.CheckArgs` is called by `doSend` and
`SendBatchFlags` but its body is not among the given sources.  Per the source
comment "Since we do not pack request here, we need to be sure it could be
packed" and the spec's definition of malformedness, the check fails exactly
when some argument has an unsupported type, producing the ArgumentType
error. -/
def CheckArgs (req : Request) : Option GoErr :=
  if req.args.all (fun a => (appendArg [] a).isSome) then none
  else some errArgumentType

/-- Index of the first malformed request of a batch — the `errpos` computed by
the argument-checking loop of `SendBatchFlags`. -/
def errPos (requests : List Request) : Option Nat :=
  requests.findIdx? (fun r => (CheckArgs r).isSome)

/-- The per-request enqueueing loop of `doSendBatch`:
`for i, req := range requests { futures = append(futures, future{cb, start+i, now, req}) }`. -/
def futuresFor (start : Nat) : List Request → List FutEntry
  | [] => []
  | r :: rs => ⟨.user, start, r⟩ :: futuresFor (start + 1) rs

/-- Result of a submission call: the shard futures list it leaves behind,
whether it sent a dirty-shard notification, and the ordered `cb.Resolve`
events it issued synchronously. -/
structure OpResult where
  shard : List FutEntry
  notified : Bool
  calls : List (Res × Nat)
deriving DecidableEq

/-- Definition of `doSend` from conn.go: single-request enqueue.  Returns the error the
caller (`SendAsk`) turns into a `Resolve` call, the updated shard list, and
whether the idle→non-empty notification was sent. -/
def doSend (st : ConnState) (cancelled : Bool) (shard : List FutEntry)
    (req : Request) (n : Nat) (asking : Bool) :
    Option GoErr × List FutEntry × Bool :=
  if cancelled then (some errRequestCancelled, shard, false)
  else match CheckArgs req with
  | some e => (some e, shard, false)
  | none =>
    match st with
    | .closed => (some errContextClosed, shard, false)
    | .disconnected => (some errNotConnected, shard, false)
    | _ =>
      let futures := shard
        ++ (if asking then [⟨.dumb, 0, ⟨"ASKING", []⟩⟩] else [])
        ++ [⟨.user, n, req⟩]
      (none, futures, shard.isEmpty)

/-- Definition of `SendAsk` from conn.go (and `Send`, which is `SendAsk` with
`asking = false`): on a `doSend` error the future is resolved with it
immediately. -/
def SendAsk (st : ConnState) (cancelled : Bool) (shard : List FutEntry)
    (req : Request) (n : Nat) (asking : Bool) : OpResult :=
  match doSend st cancelled shard req n asking with
  | (some e, sh, ntf) => ⟨sh, ntf, [(.err e, n)]⟩
  | (none, sh, ntf) => ⟨sh, ntf, []⟩

/-- Definition of `doSendBatch` from conn.go: batch enqueue with optional ASKING / MULTI /
EXEC marker futures.  Returns the common error (if any), the updated shard
list, the notification flag, and the `cb.Resolve` events it issued itself
(only the empty-transaction short circuit resolves directly). -/
def doSendBatch (st : ConnState) (cancelled : Bool) (shard : List FutEntry)
    (requests : List Request) (start : Nat) (flags : Nat) :
    Option GoErr × List FutEntry × Bool × List (Res × Nat) :=
  if requests.length = 0 then
    (none, shard, false,
      if flags.land DoTransaction ≠ 0 then [(.val (.arr []), start)] else [])
  else if cancelled then (some errRequestCancelled, shard, false, [])
  else match st with
  | .closed => (some errContextClosed, shard, false, [])
  | .disconnected => (some errNotConnected, shard, false, [])
  | _ =>
    let futures := shard
      ++ (if flags.land DoAsking ≠ 0 then [⟨.dumb, 0, ⟨"ASKING", []⟩⟩] else [])
      ++ (if flags.land DoTransaction ≠ 0 then [⟨.dumb, 0, ⟨"MULTI", []⟩⟩] else [])
      ++ futuresFor start requests
      ++ (if flags.land DoTransaction ≠ 0
          then [⟨.user, start + requests.length, ⟨"EXEC", []⟩⟩] else [])
    (none, futures, shard.isEmpty, [])

/-- Definition of `SendBatchFlags` from conn.go: checks all requests first; if any is
malformed nothing is enqueued and every index is resolved — the offender with
the ArgumentType error, the rest (and the EXEC slot of a transaction) with the
BatchFormat error wrapping it.  A `doSendBatch` error likewise resolves every
index (the Go `errpos` is `-1` there, so no index gets the special error). -/
def SendBatchFlags (st : ConnState) (cancelled : Bool) (shard : List FutEntry)
    (requests : List Request) (start : Nat) (flags : Nat) : OpResult :=
  match errPos requests with
  | some i =>
    ⟨shard, false,
      ((List.range requests.length).map fun j =>
        (Res.err (if j = i then errArgumentType else errBatchFormat errArgumentType),
          start + j))
      ++ (if flags.land DoTransaction ≠ 0
          then [(Res.err (errBatchFormat errArgumentType), start + requests.length)]
          else [])⟩
  | none =>
    match doSendBatch st cancelled shard requests start flags with
    | (none, sh, ntf, calls) => ⟨sh, ntf, calls⟩
    | (some ce, sh, ntf, calls) =>
      ⟨sh, ntf, calls
        ++ ((List.range requests.length).map fun j => (Res.err ce, start + j))
        ++ (if flags.land DoTransaction ≠ 0
            then [(Res.err ce, start + requests.length)] else [])⟩

/-- The method `transactionFuture.Resolve`: forwards only the resolve at index
`l = len(reqs)` (the EXEC slot), retargeted to the caller's offset. -/
def transactionResolve (l off : Nat) (call : Res × Nat) : Option (Res × Nat) :=
  if call.2 = l then some (call.1, off) else none

/-- Definition of `SendTransaction` from conn.go: wraps the future in `transactionFuture`
and submits through `SendBatchFlags` with the transaction flag; the reported
calls are those reaching the caller's future through the wrapper. -/
def SendTransaction (st : ConnState) (cancelled : Bool) (shard : List FutEntry)
    (reqs : List Request) (off : Nat) : OpResult :=
  if cancelled then ⟨shard, false, [(.err errRequestCancelled, off)]⟩
  else
    let r := SendBatchFlags st cancelled shard reqs 0 DoTransaction
    ⟨r.shard, r.notified, r.calls.filterMap (transactionResolve reqs.length off)⟩

/-- Modelled from the spec: the reader resolves the `k`-th future handed over
by the writer with the `k`-th parsed response (`conn.call(fut, res)` lives in
an internal package outside the given sources; per the spec it invokes
`resolve(value, index)` on the entry's future). -/
def readerDeliver (futs : List FutEntry) (replies : List Res) :
    List (Owner × Res × Nat) :=
  List.zipWith (fun f r => (f.owner, r, f.idx)) futs replies

/-- The calls that reach a `SendTransaction` caller's future from a list of
delivery events: the `dumb` sentinel discards its results, and the
`transactionFuture` wrapper filters/retargets the rest. -/
def deliveredCalls (l off : Nat) (events : List (Owner × Res × Nat)) :
    List (Res × Nat) :=
  events.filterMap fun e =>
    match e.1 with
    | .dumb => none
    | .user => transactionResolve l off e.2

/-! ### Claim C7: the dirty-shard notification protocol

Every mutation of a shard's futures list happens under that shard's lock
(`doSend`/`doSendBatch` enqueues, the writer's swap, and `dropShardFutures`
under all locks); the model therefore takes each locked critical section as
one atomic step.  The enqueue step signals the dirty channel exactly when the
list was empty before, as the sources do before storing the new list back;
the writer step consumes the head notification and swaps the shard's list
out; the drop step (connection loss/close) drains the channel and clears
every list. -/

/-- State of the shard queue protocol: `N` shard future lists plus the FIFO
dirty-shard channel of shard indices. -/
structure WState (N : Nat) where
  shards : Fin N → List FutEntry
  chan : List (Fin N)

/-- One atomic protocol step. -/
inductive WStep (N : Nat) : WState N → WState N → Prop
  | enqueue (st : WState N) (s : Fin N) (new : List FutEntry) (hne : new ≠ []) :
      WStep N st
        ⟨Function.update st.shards s (st.shards s ++ new),
          if st.shards s = [] then st.chan ++ [s] else st.chan⟩
  | writerSwap (st : WState N) (s : Fin N) (rest : List (Fin N))
      (h : st.chan = s :: rest) :
      WStep N st ⟨Function.update st.shards s [], rest⟩
  | drop (st : WState N) :
      WStep N st ⟨fun _ => [], []⟩

/-- Reachability from the freshly constructed connection (all shards empty,
channel empty). -/
inductive WReach (N : Nat) : WState N → Prop
  | init : WReach N ⟨fun _ => [], []⟩
  | step (st st2 : WState N) : WReach N st → WStep N st st2 → WReach N st2

/-- The notification invariant: a non-empty shard has exactly one pending
notification, an empty shard has none. -/
def WInv (N : Nat) (st : WState N) : Prop :=
  ∀ s : Fin N, st.chan.count s = if st.shards s = [] then 0 else 1

/-! ### Claim C8: the per-session fault latch -/

/-- Observable state of a per-socket session (`oneconn`): whether the
`erronce` latch has fired, whether the control channel is closed, the recorded
error, and how many reconnect tasks have been spawned. -/
structure OneConn where
  errOnceDone : Bool
  controlClosed : Bool
  err : Option GoErr
  reconnectSpawns : Nat
deriving DecidableEq

/-- A freshly dialed session. -/
def oneconnInit : OneConn := ⟨false, false, none, 0⟩

/-- The error coercion at the top of `setErr`: `neterr.(*redis.Error)`
succeeds for redis errors; any other error (such as the context's
cancellation error) is wrapped as `NewErrWrap(ErrKindIO, ErrIO, neterr)`. -/
def wrapNetErr : GoErr → GoErr
  | .ctxCanceled => GoErr.wrap .ioErr .ioError .ctxCanceled
  | .redisErr k c => .redisErr k c
  | .wrap k c e => .wrap k c e

/-- Definition of `setErr` from request_writer.go: the whole body runs inside
`erronce.Do`, so it executes only on the first invocation; it closes the
control channel, records the error, and spawns the reconnect task.
`sync.Once` serializes concurrent callers, so a history of invocations is a
sequence. -/
def setErr (one : OneConn) (neterr : GoErr) : OneConn :=
  if one.errOnceDone then one
  else ⟨true, true, some (wrapNetErr neterr), one.reconnectSpawns + 1⟩

/-! ### Claim C9: dial's scheme detection -/

/-- The scheme-detection prelude of `dial` from conn.go.  `address[0]`,
`address[0:7]` and `address[0:6]` are Go string index/slice expressions that
PANIC when out of range; `none` models such a panic.  `Connect` rejects the
empty address, but `dial` evaluates `address[0:7]` for every address that
does not start with '.' or '/', panicking whenever the address is shorter
than 7 bytes. -/
def dialNetworkAddress (address : List Char) : Option (String × List Char) :=
  match address with
  | [] => none
  | c :: _ =>
    if c = '.' ∨ c = '/' then some ("unix", address)
    else if 7 ≤ address.length then
      if address.take 7 = "unix://".data then some ("unix", address.drop 7)
      else if address.take 6 = "tcp://".data then some ("tcp", address.drop 6)
      else some ("tcp", address)
    else none

/-! ## Theorems -/

theorem uintDigitsAux_eq (fuel : Nat) :
    ∀ (u : Nat) (acc : List Char), (Nat.digits 10 u).length ≤ fuel →
      uintDigitsAux fuel u acc = decimalRep u ++ acc := by
  induction fuel with
  | zero =>
    intro u acc h
    have hu : u = 0 := by
      by_contra hne
      have hne2 : Nat.digits 10 u ≠ [] := Nat.digits_ne_nil_iff_ne_zero.mpr hne
      simp [List.length_eq_zero] at h
      exact hne2 h
    subst hu
    simp [uintDigitsAux, decimalRep]
  | succ f ih =>
    intro u acc h
    by_cases hu : 0 < u
    · rw [uintDigitsAux, if_pos hu]
      have hdig : Nat.digits 10 u = u % 10 :: Nat.digits 10 (u / 10) :=
        Nat.digits_def' (by norm_num) hu
      have hlen : (Nat.digits 10 (u / 10)).length ≤ f := by
        rw [hdig] at h
        simpa using h
      rw [ih (u / 10) _ hlen]
      simp [decimalRep, hdig]
    · have hu0 : u = 0 := Nat.eq_zero_of_not_pos hu
      subst hu0
      simp [uintDigitsAux, decimalRep]

theorem decimalRep_length_le_iff (u k : Nat) :
    (decimalRep u).length ≤ k ↔ u < 10 ^ k := by
  have hlen : (decimalRep u).length = (Nat.digits 10 u).length := by
    simp [decimalRep]
  rw [hlen]
  rcases Nat.eq_zero_or_pos u with h0 | hpos
  · subst h0
    have hk : (0:ℕ) < 10 ^ k := by positivity
    simp [hk]
  · rw [Nat.digits_len 10 u (by norm_num) hpos.ne']
    constructor
    · intro h
      have : Nat.log 10 u < k := by omega
      exact (Nat.lt_pow_iff_log_lt (by norm_num) hpos.ne').mpr this
    · intro h
      have := (Nat.lt_pow_iff_log_lt (by norm_num) hpos.ne').mp h
      omega

theorem appendUint_eq (b : List Char) (u : Nat) (h : u < 10 ^ 20) :
    appendUint b u = b ++ decimalRep u := by
  have hlen : (Nat.digits 10 u).length ≤ 20 := by
    have := (decimalRep_length_le_iff u 20).mpr h
    simpa [decimalRep] using this
  rw [appendUint, uintDigitsAux_eq 20 u [] hlen]
  simp

theorem decimalRep_zero : decimalRep 0 = [] := by simp [decimalRep]

theorem decimalRep_ne_nil (u : Nat) (h : u ≠ 0) : decimalRep u ≠ [] := by
  have h1 : ¬ (decimalRep u).length ≤ 0 := by
    rw [decimalRep_length_le_iff]
    simp only [pow_zero]
    omega
  intro hnil
  rw [hnil] at h1
  simp at h1

theorem decimalRep_single (u : Nat) (h1 : u ≠ 0) (h2 : u < 10) :
    decimalRep u = [digitChar u] := by
  rw [decimalRep, Nat.digits_of_lt 10 u h1 h2]
  rfl

theorem decimalRep_two_digit (u : Nat) (h1 : 10 ≤ u) (h2 : u < 100) :
    decimalRep u = [digitChar (u / 10), digitChar (u % 10)] := by
  have hu : 0 < u := by omega
  have hd1 : u / 10 ≠ 0 := by omega
  have hd2 : u / 10 < 10 := by omega
  rw [decimalRep, Nat.digits_def' (by norm_num : (1:ℕ) < 10) hu,
    Nat.digits_of_lt 10 (u / 10) hd1 hd2]
  rfl

theorem appendInt_eq (b : List Char) (i : Int)
    (h1 : -9223372036854775808 ≤ i) (h2 : i < 9223372036854775808) :
    appendInt b i = b ++ intRep i := by
  rw [appendInt, intRep]
  by_cases hsmall : 0 ≤ i ∧ i ≤ 9
  · rw [if_pos hsmall]
    rcases eq_or_ne i 0 with h0 | h0
    · subst h0; rfl
    · rw [if_neg h0, if_pos (lt_of_le_of_ne hsmall.1 (Ne.symm h0))]
      have hne : i.toNat ≠ 0 := by omega
      have hlt : i.toNat < 10 := by omega
      rw [decimalRep_single i.toNat hne hlt]
  · rw [if_neg hsmall]
    by_cases hpos : 0 < i
    · rw [if_pos hpos, if_neg (by omega), if_pos hpos]
      have hmod : i % 18446744073709551616 = i :=
        Int.emod_eq_of_lt (by omega) (by omega)
      rw [hmod, appendUint_eq]
      omega
    · rw [if_neg hpos, if_neg (by omega), if_neg hpos]
      have hmod : (-i) % 18446744073709551616 = -i :=
        Int.emod_eq_of_lt (by omega) (by omega)
      rw [hmod, appendUint_eq]
      · simp
      · omega

theorem intRep_ne_nil (i : Int) : intRep i ≠ [] := by
  rw [intRep]
  split
  · simp
  · split
    · apply decimalRep_ne_nil
      omega
    · simp

theorem appendInt_append (b : List Char) (i : Int) :
    appendInt b i = b ++ appendInt [] i := by
  rw [appendInt, appendInt]
  split
  · simp
  · split
    · simp [appendUint]
    · simp [appendUint]

theorem appendHead_eq (b : List Char) (t : Char) (i : Int) :
    appendHead b t i = b ++ t :: appendInt [] i ++ crlf := by
  rw [appendHead, appendInt_append]
  simp [crlf]

theorem appendInt_small (n : Nat) (h : n ≤ 9) :
    appendInt [] (n : Int) = [digitChar n] := by
  rw [appendInt, if_pos ⟨by omega, by exact_mod_cast h⟩]
  simp

theorem appendInt_two_digits (n : Nat) (h1 : 10 ≤ n) (h2 : n < 100) :
    appendInt [] (n : Int) = [digitChar (n / 10), digitChar (n % 10)] := by
  have hrange : appendInt [] ((n : Nat) : Int) = [] ++ intRep (n : Int) :=
    appendInt_eq [] (n : Int) (by omega) (by omega)
  rw [hrange, intRep, if_neg (by omega), if_pos (by exact_mod_cast Nat.lt_of_lt_of_le (by omega) h1)]
  have ht : ((n : Int)).toNat = n := Int.toNat_natCast n
  rw [ht, decimalRep_two_digit n h1 h2]
  simp

theorem intRep_length_small (i : Int) (hlo : -99999999 ≤ i) (hhi : i ≤ 999999999) :
    (intRep i).length ≤ 9 := by
  rw [intRep]
  split
  · simp
  · split
    · have hp9 : (10:ℕ) ^ 9 = 1000000000 := by norm_num
      have hlt : i.toNat < 10 ^ 9 := by omega
      have := (decimalRep_length_le_iff i.toNat 9).mpr hlt
      simpa using this
    · have hp8 : (10:ℕ) ^ 8 = 100000000 := by norm_num
      have hlt : (-i).toNat < 10 ^ 8 := by omega
      have := (decimalRep_length_le_iff (-i).toNat 8).mpr hlt
      simp only [List.length_cons]
      omega

theorem intRep_length_large (i : Int) (h1 : -9223372036854775808 ≤ i)
    (h2 : i < 9223372036854775808) (h : ¬(-99999999 ≤ i ∧ i ≤ 999999999)) :
    10 ≤ (intRep i).length ∧ (intRep i).length < 100 := by
  have hp9 : (10:ℕ) ^ 9 = 1000000000 := by norm_num
  have hp8 : (10:ℕ) ^ 8 = 100000000 := by norm_num
  have hp19 : (10:ℕ) ^ 19 = 10000000000000000000 := by norm_num
  rw [intRep]
  split
  · omega
  · split
    · have hpos : (999999999 : Int) < i := by omega
      have hge : ¬ i.toNat < 10 ^ 9 := by omega
      have hlt : i.toNat < 10 ^ 19 := by omega
      have hge2 := (decimalRep_length_le_iff i.toNat 9).not.mpr hge
      have hlt2 := (decimalRep_length_le_iff i.toNat 19).mpr hlt
      omega
    · have hneg : i < -99999999 := by omega
      have hge : ¬ (-i).toNat < 10 ^ 8 := by omega
      have hlt : (-i).toNat < 10 ^ 19 := by omega
      have hge2 := (decimalRep_length_le_iff (-i).toNat 8).not.mpr hge
      have hlt2 := (decimalRep_length_le_iff (-i).toNat 19).mpr hlt
      simp only [List.length_cons]
      omega

theorem list_set_append (xs ys : List Char) (k : Nat) (c : Char) (h : xs.length ≤ k) :
    (xs ++ ys).set k c = xs ++ ys.set (k - xs.length) c := by
  induction xs generalizing k with
  | nil => simp
  | cons x xs ih =>
    cases k with
    | zero => simp at h
    | succ k2 =>
      have hlen : k2 + 1 - (x :: xs).length = k2 - xs.length := by
        simp only [List.length_cons]
        omega
      rw [hlen]
      simp only [List.cons_append, List.set_cons_succ]
      rw [ih k2 (by simp only [List.length_cons] at h; omega)]

theorem set_one_digit (b rep : List Char) (p c : Char) :
    (b ++ ['$', p, '\r', '\n'] ++ rep).set (b.length + 1) c
      = b ++ ['$', c, '\r', '\n'] ++ rep := by
  rw [List.append_assoc, list_set_append b _ _ c (by omega)]
  have hk : b.length + 1 - b.length = 1 := by omega
  rw [hk]
  simp

theorem set_two_digit (b rep : List Char) (p q c d : Char) :
    ((b ++ ['$', p, q, '\r', '\n'] ++ rep).set (b.length + 1) c).set (b.length + 2) d
      = b ++ ['$', c, d, '\r', '\n'] ++ rep := by
  rw [List.append_assoc, list_set_append b _ _ c (by omega)]
  have hk1 : b.length + 1 - b.length = 1 := by omega
  rw [hk1]
  rw [list_set_append b _ _ d (by omega)]
  have hk2 : b.length + 2 - b.length = 2 := by omega
  rw [hk2]
  simp

theorem bulk_eq_bulkHead (payload : List Char) :
    bulk payload = bulkHead payload ++ crlf := by
  simp [bulk, bulkHead]

theorem appendBulkInt_eq (b : List Char) (i : Int)
    (h1 : -9223372036854775808 ≤ i) (h2 : i < 9223372036854775808) :
    appendBulkInt b i = b ++ bulkHead (intRep i) := by
  simp only [appendBulkInt]
  by_cases hs : -99999999 ≤ i ∧ i ≤ 999999999
  · rw [if_pos hs, appendInt_eq _ i h1 h2]
    have hsub : (b ++ ['$', '0', '\r', '\n'] ++ intRep i).length
        - (b ++ ['$', '0', '\r', '\n']).length = (intRep i).length := by
      simp only [List.length_append, List.length_cons, List.length_nil]
      omega
    rw [hsub]
    have hli : (intRep i).length ≤ 9 := intRep_length_small i hs.1 hs.2
    rw [if_pos (by omega)]
    have hpos : (b ++ ['$', '0', '\r', '\n']).length - 3 = b.length + 1 := by simp
    rw [hpos, set_one_digit]
    rw [bulkHead, appendInt_small (intRep i).length hli]
    simp [crlf]
  · rw [if_neg hs, appendInt_eq _ i h1 h2]
    have hsub : (b ++ ['$', '0', '0', '\r', '\n'] ++ intRep i).length
        - (b ++ ['$', '0', '0', '\r', '\n']).length = (intRep i).length := by
      simp only [List.length_append, List.length_cons, List.length_nil]
      omega
    rw [hsub]
    obtain ⟨hge, hlt⟩ := intRep_length_large i h1 h2 hs
    rw [if_neg (by omega)]
    have hpos4 : (b ++ ['$', '0', '0', '\r', '\n']).length - 4 = b.length + 1 := by simp
    have hpos3 : (b ++ ['$', '0', '0', '\r', '\n']).length - 3 = b.length + 2 := by simp
    rw [hpos4, hpos3, set_two_digit]
    rw [bulkHead, appendInt_two_digits (intRep i).length hge hlt]
    simp [crlf]

theorem appendBulkUint_eq (b : List Char) (u : Nat)
    (h : u < 18446744073709551616) :
    appendBulkUint b u = b ++ bulkHead (decimalRep u) := by
  have hu20 : u < 10 ^ 20 := by
    have : (10:ℕ) ^ 20 = 100000000000000000000 := by norm_num
    omega
  have hp9 : (10:ℕ) ^ 9 = 1000000000 := by norm_num
  simp only [appendBulkUint]
  by_cases hs : u ≤ 999999999
  · rw [if_pos hs, appendUint_eq _ u hu20]
    have hsub : (b ++ ['$', '0', '\r', '\n'] ++ decimalRep u).length
        - (b ++ ['$', '0', '\r', '\n']).length = (decimalRep u).length := by
      simp only [List.length_append, List.length_cons, List.length_nil]
      omega
    rw [hsub]
    have hli : (decimalRep u).length ≤ 9 :=
      (decimalRep_length_le_iff u 9).mpr (by omega)
    rw [if_pos (by omega)]
    have hpos : (b ++ ['$', '0', '\r', '\n']).length - 3 = b.length + 1 := by simp
    rw [hpos, set_one_digit]
    rw [bulkHead, appendInt_small (decimalRep u).length hli]
    simp [crlf]
  · rw [if_neg hs, appendUint_eq _ u hu20]
    have hsub : (b ++ ['$', '1', '0', '\r', '\n'] ++ decimalRep u).length
        - (b ++ ['$', '1', '0', '\r', '\n']).length = (decimalRep u).length := by
      simp only [List.length_append, List.length_cons, List.length_nil]
      omega
    rw [hsub]
    have hge : ¬ (decimalRep u).length ≤ 9 :=
      (decimalRep_length_le_iff u 9).not.mpr (by omega)
    have hlt : (decimalRep u).length ≤ 20 := (decimalRep_length_le_iff u 20).mpr hu20
    rw [if_neg (by omega)]
    have hpos4 : (b ++ ['$', '1', '0', '\r', '\n']).length - 4 = b.length + 1 := by simp
    have hpos3 : (b ++ ['$', '1', '0', '\r', '\n']).length - 3 = b.length + 2 := by simp
    rw [hpos4, hpos3, set_two_digit]
    rw [bulkHead, appendInt_two_digits (decimalRep u).length (by omega) (by omega)]
    simp [crlf]

/-- Per-argument serializer/projection agreement: for every in-range argument,
the loop body of `AppendRequest` emits exactly the RESP bulk framing of the
payload that `ArgToString` returns, and both reject exactly the unsupported
arguments. -/
theorem appendArg_eq_payload (a : Arg) (h : a.inRange = true) (b : List Char) :
    appendArg b a = (ArgToString a).map (fun p => b ++ bulk p) := by
  cases a with
  | str s =>
    show some (appendHead b '$' (s.data.length : Int) ++ s.data ++ crlf)
      = some (b ++ bulk s.data)
    rw [appendHead_eq]
    simp [bulk, crlf]
  | bytes s =>
    show some (appendHead b '$' (s.data.length : Int) ++ s.data ++ crlf)
      = some (b ++ bulk s.data)
    rw [appendHead_eq]
    simp [bulk, crlf]
  | sint i =>
    have hr : -9223372036854775808 ≤ i ∧ i < 9223372036854775808 :=
      of_decide_eq_true h
    show some (appendBulkInt b i ++ crlf) = some (b ++ bulk (appendInt [] i))
    rw [appendBulkInt_eq b i hr.1 hr.2, appendInt_eq [] i hr.1 hr.2,
      List.nil_append, bulk_eq_bulkHead]
    simp
  | uint u =>
    have hr : u < 18446744073709551616 := of_decide_eq_true h
    show some (appendBulkUint b u ++ crlf) = some (b ++ bulk (appendUint [] u))
    rw [appendBulkUint_eq b u hr, appendUint_eq [] u (by
      have : (10:ℕ) ^ 20 = 100000000000000000000 := by norm_num
      omega), List.nil_append, bulk_eq_bulkHead]
    simp
  | boolean v =>
    cases v
    · show some (b ++ "$1\r\n0".data ++ crlf) = some (b ++ bulk ['0'])
      have h0 : "$1\r\n0".data ++ crlf = bulk ['0'] := by decide
      rw [List.append_assoc, h0]
    · show some (b ++ "$1\r\n1".data ++ crlf) = some (b ++ bulk ['1'])
      have h1 : "$1\r\n1".data ++ crlf = bulk ['1'] := by decide
      rw [List.append_assoc, h1]
  | float32 s =>
    show some (appendHead b '$' (s.data.length : Int) ++ s.data ++ crlf)
      = some (b ++ bulk s.data)
    rw [appendHead_eq]
    simp [bulk, crlf]
  | float64 s =>
    show some (appendHead b '$' (s.data.length : Int) ++ s.data ++ crlf)
      = some (b ++ bulk s.data)
    rw [appendHead_eq]
    simp [bulk, crlf]
  | nil =>
    show some (b ++ "$0\r\n".data ++ crlf) = some (b ++ bulk [])
    have h0 : "$0\r\n".data ++ crlf = bulk [] := by decide
    rw [List.append_assoc, h0]
  | unsupported => rfl

/-! ### The space-splitting of command names -/

theorem lastSpaceAux_shift (s : List Char) :
    ∀ (i : Nat) (acc : Option Nat),
      lastSpaceAux s i acc = (lastSpace s).elim acc (fun j => some (i + j)) := by
  induction s with
  | nil => intro i acc; rfl
  | cons c cs ih =>
    intro i acc
    show lastSpaceAux cs (i + 1) (if c = ' ' then some i else acc)
      = ((lastSpaceAux cs 1 (if c = ' ' then some 0 else none)).elim acc
          (fun j => some (i + j)))
    rw [ih (i + 1) _, ih 1 _]
    cases hcs : lastSpace cs with
    | some j =>
      simp only [Option.elim]
      congr 1
      omega
    | none =>
      by_cases hc : c = ' '
      · rw [if_pos hc, if_pos hc]
        simp
      · rw [if_neg hc, if_neg hc]
        simp

theorem lastSpace_cons (c : Char) (cs : List Char) :
    lastSpace (c :: cs)
      = (lastSpace cs).elim (if c = ' ' then some 0 else none) (fun j => some (1 + j)) := by
  show lastSpaceAux cs 1 (if c = ' ' then some 0 else none) = _
  rw [lastSpaceAux_shift cs 1 _]

theorem lastSpace_none_notin (s : List Char) : lastSpace s = none → ' ' ∉ s := by
  induction s with
  | nil => intro _ hm; simp at hm
  | cons c cs ih =>
    intro h hm
    rw [lastSpace_cons] at h
    cases hcs : lastSpace cs with
    | some j => rw [hcs] at h; simp at h
    | none =>
      rw [hcs] at h
      simp only [Option.elim] at h
      by_cases hc : c = ' '
      · rw [if_pos hc] at h; cases h
      · rcases List.mem_cons.mp hm with heq | hmem
        · exact hc heq.symm
        · exact ih hcs hmem

theorem lastSpace_some_split (s : List Char) :
    ∀ sp, lastSpace s = some sp →
      ∃ pre post, s = pre ++ ' ' :: post ∧ pre.length = sp ∧ ' ' ∉ post := by
  induction s with
  | nil => intro sp h; cases h
  | cons c cs ih =>
    intro sp h
    rw [lastSpace_cons] at h
    cases hcs : lastSpace cs with
    | some j =>
      rw [hcs] at h
      simp only [Option.elim, Option.some.injEq] at h
      obtain ⟨pre, post, hsf, hlen, hnot⟩ := ih j hcs
      refine ⟨c :: pre, post, ?_, ?_, hnot⟩
      · rw [hsf]; rfl
      · simp only [List.length_cons]
        omega
    | none =>
      rw [hcs] at h
      simp only [Option.elim] at h
      by_cases hc : c = ' '
      · rw [if_pos hc] at h
        have hsp : sp = 0 := by
          have := Option.some.inj h
          omega
        subst hsp
        exact ⟨[], cs, by rw [hc]; rfl, rfl, lastSpace_none_notin cs hcs⟩
      · rw [if_neg hc] at h
        cases h

example : AppendRequest [] ⟨"PING", []⟩ = some "*1\r\n$4\r\nPING\r\n".data := by decide

example : AppendRequest [] ⟨"CLIENT LIST", []⟩ =
    some "*2\r\n$6\r\nCLIENT\r\n$4\r\nLIST\r\n".data := by decide

example : AppendRequest [] ⟨"SET", [.str "k", .sint 42, .nil]⟩ =
    some "*4\r\n$3\r\nSET\r\n$1\r\nk\r\n$2\r\n42\r\n$0\r\n\r\n".data := by decide

example : appendArg [] (.uint 0) = some "$0\r\n\r\n".data := by decide

example : appendArg [] (.sint (-9223372036854775808)) =
    some "$20\r\n-9223372036854775808\r\n".data := by decide

example : appendArg [] (.uint 18446744073709551615) =
    some "$20\r\n18446744073709551615\r\n".data := by decide

/-! ### Claim C1 -/

/-- C1 counterexample: the space-scanning loop of `AppendRequest` keeps the
LAST space index, not the first.  For the command name `"A B C"` the emitted
bulk strings are `"A B"` and `"C"`, while splitting on the first space — as
the claim states — would give `"A"` and `"B C"`. -/
theorem c1_counterexample :
    AppendRequest [] ⟨"A B C", []⟩ = some "*2\r\n$3\r\nA B\r\n$1\r\nC\r\n".data ∧
    specAppendRequestFirstSpace [] ⟨"A B C", []⟩
      = some "*2\r\n$1\r\nA\r\n$3\r\nB C\r\n".data ∧
    AppendRequest [] ⟨"A B C", []⟩ ≠ specAppendRequestFirstSpace [] ⟨"A B C", []⟩ :=
  ⟨by decide, by decide, by decide⟩

/-- C1 (amended): for every request whose command name contains a space,
`AppendRequest` splits the name at the LAST space into two RESP bulk strings
and emits an array header of length `len(args) + 2`; in particular
serializing `{cmd: "CLIENT LIST", args: []}` (whose only space is both first
and last) yields a RESP array of length 2 with bulks `"CLIENT"` and
`"LIST"`. -/
theorem c1_split_at_last_space (buf : List Char) (req : Request) (sp : Nat)
    (h : lastSpace req.cmd.data = some sp) :
    ((req.cmd.data.take sp).length = sp ∧
     req.cmd.data = req.cmd.data.take sp ++ ' ' :: req.cmd.data.drop (sp + 1) ∧
     ' ' ∉ req.cmd.data.drop (sp + 1)) ∧
    AppendRequest buf req =
      appendArgs (buf ++ '*' :: appendInt [] ((req.args.length : Int) + 2) ++ crlf
        ++ bulk (req.cmd.data.take sp) ++ bulk (req.cmd.data.drop (sp + 1)))
        req.args ∧
    AppendRequest [] ⟨"CLIENT LIST", []⟩
      = some "*2\r\n$6\r\nCLIENT\r\n$4\r\nLIST\r\n".data := by
  obtain ⟨pre, post, hsplit, hlen, hnot⟩ := lastSpace_some_split req.cmd.data sp h
  have htake : req.cmd.data.take sp = pre := by
    rw [hsplit]
    exact List.take_left' hlen
  have hdrop : req.cmd.data.drop (sp + 1) = post := by
    have hre : req.cmd.data = (pre ++ [' ']) ++ post := by
      rw [hsplit]
      simp
    rw [hre]
    apply List.drop_left'
    simp [hlen]
  have hclen : req.cmd.data.length = sp + 1 + post.length := by
    rw [hsplit]
    simp [hlen]
    omega
  refine ⟨⟨by rw [htake, hlen], by rw [htake, hdrop, hsplit], by rw [hdrop]; exact hnot⟩,
    ?_, by decide⟩
  have hY : ((req.cmd.data.length : Int) - (sp : Int) - 1) = (post.length : Int) := by
    rw [hclen]
    push_cast
    ring
  simp only [AppendRequest, h]
  rw [htake, hdrop, hY]
  congr 1
  rw [appendHead_eq, appendHead_eq, appendHead_eq]
  have hpre : ((pre.length : Nat) : Int) = (sp : Int) := by rw [hlen]
  simp [bulk, crlf, hpre]

theorem c1_witness :
    lastSpace ("CLIENT LIST".data) = some 6 ∧
    ((("CLIENT LIST".data).take 6).length = 6 ∧
     "CLIENT LIST".data = ("CLIENT LIST".data).take 6 ++ ' ' :: ("CLIENT LIST".data).drop 7 ∧
     ' ' ∉ ("CLIENT LIST".data).drop 7) ∧
    AppendRequest [] ⟨"CLIENT LIST", []⟩ =
      appendArgs ([] ++ '*' :: appendInt [] ((([] : List Arg).length : Int) + 2) ++ crlf
        ++ bulk (("CLIENT LIST".data).take 6) ++ bulk (("CLIENT LIST".data).drop 7)) [] ∧
    AppendRequest [] ⟨"CLIENT LIST", []⟩
      = some "*2\r\n$6\r\nCLIENT\r\n$4\r\nLIST\r\n".data := by
  have h := c1_split_at_last_space [] ⟨"CLIENT LIST", []⟩ 6 (by decide)
  exact ⟨by decide, h.1, h.2.1, h.2.2⟩

/-! ### Claim C3 -/

/-- C3 (code bug): the claim states every unsigned integer, including zero,
serializes with its decimal representation as bulk payload.  The digit loop of
`appendUint` emits no digits at all for `u = 0`, so an unsigned zero argument
is serialized as the EMPTY bulk string `$0\r\n\r\n` instead of the decimal
framing `bulk ['0'] = $1\r\n0\r\n`; `ArgToString` likewise projects unsigned
zero to the empty string.  (A signed zero correctly yields `"0"`.) -/
theorem c3_uint_zero_empty_payload :
    appendArg [] (Arg.uint 0) = some "$0\r\n\r\n".data ∧
    "$0\r\n\r\n".data ≠ bulk ['0'] ∧
    ArgToString (Arg.uint 0) = some [] ∧
    appendArg [] (Arg.sint 0) = some (bulk ['0']) ∧
    AppendRequest [] ⟨"EXPIRE", [Arg.str "k", Arg.uint 0]⟩
      = some "*3\r\n$6\r\nEXPIRE\r\n$1\r\nk\r\n$0\r\n\r\n".data :=
  ⟨by decide, by decide, by decide, by decide, by decide⟩

/-! ### Claim C4 -/

/-- C4: for every in-range argument value, `ArgToString` succeeds exactly when
the serializer accepts the argument, and its string is byte-for-byte the bulk
payload `AppendRequest`'s argument loop emits inside the `$<len>\r\n…\r\n`
framing; an unsupported value yields `("", false)` and a serializer error. -/
theorem c4_arg_to_string_matches_payload (a : Arg) (h : a.inRange = true)
    (b : List Char) :
    appendArg b a = (ArgToString a).map (fun p => b ++ bulk p) :=
  appendArg_eq_payload a h b

theorem c4_witness :
    (Arg.sint (-9223372036854775808)).inRange = true ∧
    appendArg [] (Arg.sint (-9223372036854775808))
      = (ArgToString (Arg.sint (-9223372036854775808))).map (fun p => [] ++ bulk p) :=
  ⟨by decide,
    c4_arg_to_string_matches_payload (Arg.sint (-9223372036854775808)) (by decide) []⟩

example : SendTransaction .closed false [] [] 5 = ⟨[], false, [(.val (.arr []), 5)]⟩ := by
  decide

example : SendTransaction .connected true [] [] 5
    = ⟨[], false, [(.err errRequestCancelled, 5)]⟩ := by decide

example : SendAsk .closed false [] ⟨"GET", [.str "a"]⟩ 3 false
    = ⟨[], false, [(.err errContextClosed, 3)]⟩ := by decide

example : SendBatchFlags .connected false []
      [⟨"GET", [.str "a"]⟩, ⟨"GET", [.unsupported]⟩] 10 0
    = ⟨[], false, [(.err (errBatchFormat errArgumentType), 10),
        (.err errArgumentType, 11)]⟩ := by decide

/-! ### Claim C2 -/

theorem futuresFor_length (rs : List Request) :
    ∀ start, (futuresFor start rs).length = rs.length := by
  induction rs with
  | nil => intro start; rfl
  | cons r rs ih =>
    intro start
    simp [futuresFor, ih (start + 1)]

theorem errPos_spec (requests : List Request) :
    ∀ i, errPos requests = some i →
      ∃ r, requests.get? i = some r ∧ (CheckArgs r).isSome = true := by
  induction requests with
  | nil => intro i h; simp [errPos] at h
  | cons r rs ih =>
    intro i h
    rw [errPos, List.findIdx?_cons] at h
    by_cases hp : (CheckArgs r).isSome = true
    · rw [if_pos hp] at h
      obtain rfl : (0 : Nat) = i := Option.some.inj h
      exact ⟨r, rfl, hp⟩
    · rw [if_neg hp, List.findIdx?_succ] at h
      obtain ⟨j, hj, rfl⟩ := Option.map_eq_some'.mp h
      obtain ⟨r2, hr2, hck⟩ := ih j hj
      exact ⟨r2, by simpa using hr2, hck⟩

/-- C2: if any request of a batch has an unsupported argument, `SendBatchFlags`
enqueues nothing (the shard list is unchanged and no notification is sent) and
issues exactly one `Resolve` per index of the batch: the first offending index
with the ArgumentType error, every other index — including the extra EXEC
index when the transaction flag is set — with the BatchFormat error wrapping
it. -/
theorem c2_malformed_batch (st : ConnState) (cancelled : Bool)
    (shard : List FutEntry) (requests : List Request) (start flags i : Nat)
    (h : errPos requests = some i) :
    (∃ r, requests.get? i = some r ∧ (CheckArgs r).isSome = true) ∧
    SendBatchFlags st cancelled shard requests start flags =
      ⟨shard, false,
        ((List.range requests.length).map fun j =>
          (Res.err (if j = i then errArgumentType else errBatchFormat errArgumentType),
            start + j))
        ++ (if flags.land DoTransaction ≠ 0
            then [(Res.err (errBatchFormat errArgumentType), start + requests.length)]
            else [])⟩ := by
  refine ⟨errPos_spec requests i h, ?_⟩
  rw [SendBatchFlags, h]

theorem c2_witness :
    errPos [⟨"GET", [.str "a"]⟩, ⟨"GET", [.unsupported]⟩] = some 1 ∧
    SendBatchFlags .connected false []
        [⟨"GET", [.str "a"]⟩, ⟨"GET", [.unsupported]⟩] 10 0 =
      ⟨[], false,
        ((List.range 2).map fun j =>
          (Res.err (if j = 1 then errArgumentType else errBatchFormat errArgumentType),
            10 + j))
        ++ (if (0 : Nat).land DoTransaction ≠ 0
            then [(Res.err (errBatchFormat errArgumentType), 10 + 2)] else [])⟩ :=
  ⟨by decide,
    (c2_malformed_batch .connected false []
      [⟨"GET", [.str "a"]⟩, ⟨"GET", [.unsupported]⟩] 10 0 1 (by decide)).2⟩

/-! ### Claim C5 -/

theorem readerDeliver_append (fs1 fs2 : List FutEntry) (rs1 rs2 : List Res)
    (h : fs1.length = rs1.length) :
    readerDeliver (fs1 ++ fs2) (rs1 ++ rs2)
      = readerDeliver fs1 rs1 ++ readerDeliver fs2 rs2 :=
  List.zipWith_append _ _ _ _ _ h

theorem deliveredCalls_append (l off : Nat) (e1 e2 : List (Owner × Res × Nat)) :
    deliveredCalls l off (e1 ++ e2)
      = deliveredCalls l off e1 ++ deliveredCalls l off e2 := by
  simp [deliveredCalls]

theorem deliveredCalls_skip_dumb (l off i : Nat) (rq : Request)
    (fs : List FutEntry) (r : Res) (rs : List Res) :
    deliveredCalls l off (readerDeliver (⟨.dumb, i, rq⟩ :: fs) (r :: rs))
      = deliveredCalls l off (readerDeliver fs rs) := rfl

theorem deliveredCalls_exec (l off i : Nat) (rq : Request) (v : Res) (h : i = l) :
    deliveredCalls l off (readerDeliver [⟨.user, i, rq⟩] [v]) = [(v, off)] := by
  subst h
  simp [deliveredCalls, readerDeliver, transactionResolve]

theorem deliveredCalls_futuresFor (l off : Nat) (rs : List Request) :
    ∀ (start : Nat) (replies : List Res), start + rs.length ≤ l →
      deliveredCalls l off (readerDeliver (futuresFor start rs) replies) = [] := by
  induction rs with
  | nil =>
    intro start replies _
    simp [futuresFor, readerDeliver, deliveredCalls]
  | cons r rs ih =>
    intro start replies h
    cases replies with
    | nil => simp [futuresFor, readerDeliver, deliveredCalls]
    | cons rep reps =>
      have hne : start ≠ l := by
        simp only [List.length_cons] at h
        omega
      have hrest := ih (start + 1) reps
        (by simp only [List.length_cons] at h; omega)
      simp only [futuresFor, readerDeliver, List.zipWith_cons_cons, deliveredCalls,
        List.filterMap_cons, transactionResolve, if_neg hne] at hrest ⊢
      exact hrest

/-- C5: a transaction on a live connection with non-malformed requests issues
no synchronous `Resolve`; when the reader then delivers the MULTI reply, the
`len(reqs)` intermediate replies and the EXEC reply `vs` against the enqueued
futures, the caller's future is resolved exactly once, with `(vs, off)` —
the MULTI marker reply and the intermediate replies are discarded. -/
theorem c5_transaction_resolve (st : ConnState)
    (hlive : st = .connecting ∨ st = .connected)
    (reqs : List Request) (hne : reqs ≠ []) (hwf : errPos reqs = none)
    (off : Nat) (mreply : Res) (inters : List Res)
    (hlen : inters.length = reqs.length) (vs : RVal) :
    (SendTransaction st false [] reqs off).calls = [] ∧
    deliveredCalls reqs.length off
      (readerDeliver (SendTransaction st false [] reqs off).shard
        (mreply :: (inters ++ [Res.val vs])))
      = [(Res.val vs, off)] := by
  have h0 : reqs.length ≠ 0 := fun hz => hne (List.length_eq_zero.mp hz)
  have hmain : SendTransaction st false [] reqs off =
      ⟨⟨.dumb, 0, ⟨"MULTI", []⟩⟩ :: (futuresFor 0 reqs
          ++ [⟨.user, 0 + reqs.length, ⟨"EXEC", []⟩⟩]),
        true, []⟩ := by
    rcases hlive with rfl | rfl <;>
      simp +decide [SendTransaction, SendBatchFlags, hwf, doSendBatch, h0]
  rw [hmain]
  refine ⟨rfl, ?_⟩
  rw [deliveredCalls_skip_dumb,
    readerDeliver_append _ _ _ _ (by rw [futuresFor_length reqs 0, hlen]),
    deliveredCalls_append,
    deliveredCalls_futuresFor reqs.length off reqs 0 inters (by omega),
    deliveredCalls_exec reqs.length off _ _ _ (Nat.zero_add _),
    List.nil_append]

theorem c5_witness :
    (SendTransaction .connected false []
      [⟨"GET", [.str "a"]⟩, ⟨"SET", [.str "b", .str "c"]⟩] 7).calls = [] ∧
    deliveredCalls 2 7
      (readerDeliver (SendTransaction .connected false []
          [⟨"GET", [.str "a"]⟩, ⟨"SET", [.str "b", .str "c"]⟩] 7).shard
        (Res.val (.simple "OK") ::
          ([Res.val (.bulkStr "x1"), Res.val (.bulkStr "x2")]
            ++ [Res.val (RVal.arr [.bulkStr "v1", .bulkStr "v2"])])))
      = [(Res.val (RVal.arr [.bulkStr "v1", .bulkStr "v2"]), 7)] :=
  c5_transaction_resolve .connected (Or.inr rfl)
    [⟨"GET", [.str "a"]⟩, ⟨"SET", [.str "b", .str "c"]⟩] (by decide) (by decide) 7
    (Res.val (.simple "OK"))
    [Res.val (.bulkStr "x1"), Res.val (.bulkStr "x2")] (by decide)
    (RVal.arr [.bulkStr "v1", .bulkStr "v2"])

/-! ### Claim C6 -/

theorem transactionResolve_range_none (l off : Nat) (e : Res) :
    ((List.range l).map fun j => (e, j)).filterMap (transactionResolve l off) = [] := by
  rw [List.filterMap_eq_nil_iff]
  intro a ha
  simp only [List.mem_map, List.mem_range] at ha
  obtain ⟨j, hj, rfl⟩ := ha
  simp [transactionResolve, Nat.ne_of_lt hj]

/-- C6 counterexample: after the connection is closed, an EMPTY
`SendTransaction` still resolves its future — but with the empty-array success
value, not with a ContextClosed error, because the empty-batch short circuit
of `doSendBatch` runs before the state check. -/
theorem c6_counterexample :
    SendTransaction .closed false [] [] 5 = ⟨[], false, [(.val (.arr []), 5)]⟩ ∧
    Res.val (.arr []) ≠ Res.err errContextClosed :=
  ⟨by decide, by decide⟩

/-- C6 (amended): a submission made after the connection state has become
Closed — through `Send`/`SendAsk`, `SendBatch(Flags)` or `SendTransaction` —
whose future is not cancelled, whose requests are all well-formed, and (for
the batch forms) whose request list is non-empty, resolves every index of the
submission exactly once with the ContextClosed error wrapping the context
cause, and enqueues nothing. -/
theorem c6_closed_submission (shard : List FutEntry) (req : Request)
    (reqs : List Request) (n start off : Nat)
    (hreq : CheckArgs req = none) (hwf : errPos reqs = none) (hne : reqs ≠ []) :
    SendAsk .closed false shard req n false
      = ⟨shard, false, [(.err errContextClosed, n)]⟩ ∧
    SendBatchFlags .closed false shard reqs start 0
      = ⟨shard, false,
          (List.range reqs.length).map fun j => (Res.err errContextClosed, start + j)⟩ ∧
    SendTransaction .closed false shard reqs off
      = ⟨shard, false, [(.err errContextClosed, off)]⟩ := by
  have h0 : reqs.length ≠ 0 := fun hz => hne (List.length_eq_zero.mp hz)
  refine ⟨?_, ?_, ?_⟩
  · simp [SendAsk, doSend, hreq]
  · simp +decide [SendBatchFlags, hwf, doSendBatch, h0]
  · have hbatch : SendBatchFlags .closed false shard reqs 0 DoTransaction =
        ⟨shard, false,
          ((List.range reqs.length).map fun j => (Res.err errContextClosed, j))
            ++ [(Res.err errContextClosed, 0 + reqs.length)]⟩ := by
      simp +decide [SendBatchFlags, hwf, doSendBatch, h0]
    simp only [SendTransaction, hbatch, Bool.false_eq_true, if_false]
    rw [List.filterMap_append, transactionResolve_range_none]
    simp [transactionResolve]

theorem c6_witness :
    CheckArgs ⟨"PING", []⟩ = none ∧
    errPos [⟨"GET", [.str "a"]⟩] = none ∧
    (SendAsk .closed false [] ⟨"PING", []⟩ 4 false
        = ⟨[], false, [(.err errContextClosed, 4)]⟩ ∧
      SendBatchFlags .closed false [] [⟨"GET", [.str "a"]⟩] 3 0
        = ⟨[], false,
            (List.range 1).map fun j => (Res.err errContextClosed, 3 + j)⟩ ∧
      SendTransaction .closed false [] [⟨"GET", [.str "a"]⟩] 7
        = ⟨[], false, [(.err errContextClosed, 7)]⟩) :=
  ⟨by decide, by decide,
    c6_closed_submission [] ⟨"PING", []⟩ [⟨"GET", [.str "a"]⟩] 4 3 7
      (by decide) (by decide) (by decide)⟩

/-! ### Claim C10 -/

/-- C10 counterexample: a CANCELLED future submitted through an empty
`SendTransaction` is resolved once with the RequestCancelled error, not with
an empty array. -/
theorem c10_counterexample :
    SendTransaction .connected true [] [] 5
      = ⟨[], false, [(.err errRequestCancelled, 5)]⟩ ∧
    Res.err errRequestCancelled ≠ Res.val (.arr []) :=
  ⟨by decide, by decide⟩

/-- C10 (amended): for every NON-CANCELLED future and offset `off`,
`SendTransaction` with an empty request list on a non-closed connection
resolves the future exactly once, with the empty array delivered at `off`,
enqueueing nothing on any shard and sending no notification. -/
theorem c10_empty_transaction (st : ConnState) (_hst : st ≠ ConnState.closed)
    (shard : List FutEntry) (off : Nat) :
    SendTransaction st false shard [] off
      = ⟨shard, false, [(.val (.arr []), off)]⟩ := by
  simp +decide [SendTransaction, SendBatchFlags, errPos, doSendBatch, transactionResolve]

theorem c10_witness :
    ConnState.connected ≠ ConnState.closed ∧
    SendTransaction .connected false [] [] 9 = ⟨[], false, [(.val (.arr []), 9)]⟩ :=
  ⟨by decide, c10_empty_transaction .connected (by decide) [] 9⟩

/-- C7: in every reachable state of the shard-queue protocol, a shard whose
pending-futures list is non-empty has exactly one notification carrying its
index pending on the dirty-shard channel (and an idle shard has none); the
idle→non-empty edge is the only step that signals, and it does so within the
same locked section that stores the new list. -/
theorem c7_dirty_shard_invariant (N : Nat) (st : WState N)
    (h : WReach N st) : WInv N st := by
  induction h with
  | init =>
    intro s
    simp
  | step st st2 _ hstep ih =>
    cases hstep with
    | enqueue s new hne =>
      intro t
      by_cases hts : t = s
      · subst hts
        have hupd : Function.update st.shards t (st.shards t ++ new) t
            = st.shards t ++ new := Function.update_same t _ _
        simp only [hupd]
        by_cases hemp : st.shards t = []
        · rw [if_pos hemp]
          have hcnt := ih t
          rw [if_pos hemp] at hcnt
          simp [List.count_append, hcnt, hemp, hne]
        · rw [if_neg hemp]
          have hcnt := ih t
          rw [if_neg hemp] at hcnt
          have hne2 : st.shards t ++ new ≠ [] := by
            simp [hemp]
          simp [hne2, hcnt]
      · have hupd : Function.update st.shards s (st.shards s ++ new) t
            = st.shards t := Function.update_noteq hts _ _
        simp only [hupd]
        have hcnt := ih t
        have hsym : s ≠ t := fun hh => hts hh.symm
        by_cases hemp : st.shards s = []
        · rw [if_pos hemp, List.count_append]
          have hzero : List.count t [s] = 0 := by
            rw [List.count_cons, List.count_nil]
            simp [hsym]
          rw [hzero]
          simpa using hcnt
        · rw [if_neg hemp]
          exact hcnt
    | writerSwap s rest hchan =>
      intro t
      have hcnt := ih t
      by_cases hts : t = s
      · subst hts
        show List.count t rest = if Function.update st.shards t [] t = [] then 0 else 1
        rw [Function.update_same, if_pos rfl]
        rw [hchan] at hcnt
        have hsne : st.shards t ≠ [] := by
          intro hemp
          rw [if_pos hemp] at hcnt
          simp [List.count_cons] at hcnt
        rw [if_neg hsne] at hcnt
        simp [List.count_cons] at hcnt
        omega
      · have hupd : Function.update st.shards s [] t = st.shards t :=
          Function.update_noteq hts _ _
        simp only [hupd]
        rw [hchan, List.count_cons] at hcnt
        have hsym : s ≠ t := fun hh => hts hh.symm
        simp [hsym] at hcnt
        exact hcnt
    | drop =>
      intro s
      simp

theorem c7_witness :
    WReach 1 ⟨Function.update (fun _ => []) 0 ([] ++ [⟨.user, 0, ⟨"PING", []⟩⟩]),
        if ([] : List FutEntry) = [] then ([] : List (Fin 1)) ++ [0] else []⟩ ∧
    WInv 1 ⟨Function.update (fun _ => []) 0 ([] ++ [⟨.user, 0, ⟨"PING", []⟩⟩]),
        if ([] : List FutEntry) = [] then ([] : List (Fin 1)) ++ [0] else []⟩ := by
  have hstep : WStep 1 ⟨fun _ => [], []⟩
      ⟨Function.update (fun _ => []) 0 ([] ++ [⟨.user, 0, ⟨"PING", []⟩⟩]),
        if ([] : List FutEntry) = [] then ([] : List (Fin 1)) ++ [0] else []⟩ :=
    WStep.enqueue ⟨fun _ => [], []⟩ 0 [⟨.user, 0, ⟨"PING", []⟩⟩] (by simp)
  have hreach := WReach.step _ _ (WReach.init) hstep
  exact ⟨hreach, c7_dirty_shard_invariant 1 _ hreach⟩

theorem setErr_done (one : OneConn) (h : one.errOnceDone = true) :
    ∀ errs : List GoErr, errs.foldl setErr one = one := by
  intro errs
  induction errs with
  | nil => rfl
  | cons e es ih =>
    show es.foldl setErr (setErr one e) = one
    rw [setErr, if_pos h]
    exact ih

/-- C8: no matter how many times `setErr` is invoked on a session (writer
failure, reader failure, or both), the reconnect task is spawned at most
once for that session. -/
theorem c8_reconnect_spawned_at_most_once (errs : List GoErr) :
    (errs.foldl setErr oneconnInit).reconnectSpawns ≤ 1 := by
  cases errs with
  | nil => exact Nat.zero_le 1
  | cons e es =>
    show (es.foldl setErr (setErr oneconnInit e)).reconnectSpawns ≤ 1
    have hfirst : (setErr oneconnInit e).errOnceDone = true := by
      rw [setErr, if_neg (by exact Bool.false_ne_true)]
    rw [setErr_done (setErr oneconnInit e) hfirst es]
    rw [setErr, if_neg (by exact Bool.false_ne_true)]
    exact Nat.le_refl 1

/-- C9 (code bug): the scheme detection is NOT panic-free for every non-empty
accepted address: the plain `host:port` address `"x:6379"` (6 bytes, first
byte not '.' or '/') makes `address[0:7]` slice out of range and panic.
Addresses of length at least 7, and unix-path addresses, are handled without
a panic. -/
theorem c9_short_address_panics :
    dialNetworkAddress "x:6379".data = none ∧
    dialNetworkAddress "host:6379".data = some ("tcp", "host:6379".data) ∧
    dialNetworkAddress "/tmp/r.sock".data = some ("unix", "/tmp/r.sock".data) ∧
    dialNetworkAddress "unix:///tmp/r".data = some ("unix", "/tmp/r".data) ∧
    dialNetworkAddress "tcp://h:6379".data = some ("tcp", "h:6379".data) :=
  ⟨by decide, by decide, by decide, by decide, by decide⟩

/-- Every address of length at least 7 whose first byte is not '.' or '/' is
parsed without a panic (supporting lemma for C9's divergence being exactly the
short addresses). -/
theorem dialNetworkAddress_long_ok (address : List Char)
    (h7 : 7 ≤ address.length) :
    (dialNetworkAddress address).isSome = true := by
  cases address with
  | nil => simp at h7
  | cons c rest =>
    rw [dialNetworkAddress]
    by_cases hc : c = '.' ∨ c = '/'
    · rw [if_pos hc]
      rfl
    · rw [if_neg hc, if_pos h7]
      by_cases hu : (c :: rest).take 7 = "unix://".data
      · rw [if_pos hu]
        rfl
      · rw [if_neg hu]
        by_cases ht : (c :: rest).take 6 = "tcp://".data
        · rw [if_pos ht]
          rfl
        · rw [if_neg ht]
          rfl

end Redispipe
